import Mathlib

/-!
# Verification of the cp2 RPC file server (server.c)

A shallow embedding of the reply-marshalling, frame-reading and dispatch
logic of `src/15440-p1/cp2/server.c`, together with theorems settling the
frozen claims about its natural-language specification.

Modelling conventions:
* Bytes are `Nat` values; multi-byte integers are laid out little-endian
  exactly as the source's `memcpy` of `int` / `ssize_t` / `off_t` values
  does on an x86-64 host (`int` = 4 bytes, `ssize_t` = `off_t` = `size_t`
  = 8 bytes).
* C signed values are Lean `Int`; conversion to the wire is two's
  complement, written with an explicit `% 2^w`.
* The operating system is an oracle: each handler takes the result of the
  underlying filesystem call and the value of the global `errno`
  immediately after that call returned.
* POSIX allows any library call to modify `errno`.  The calls the source
  performs between the filesystem call and the `memcpy` that captures
  `errno` (its `free`/`malloc` calls) are modelled by an environment
  `LibEnv`; `env k e` is the value of `errno` after the k-th such
  intervening call, given that it was `e` before.
* Code whose behaviour C leaves undefined (an out-of-bounds `memcpy`)
  returns `none`.
-/

/-- `MAXMSGLEN` from server.c. -/
def MAXMSGLEN : Nat := 200

/-- `sizeof(struct stat)` on the 64-bit Linux host both ends must share. -/
def statSize : Nat := 144

/-- Little-endian layout of the low `w` bytes of a natural number, as
`memcpy` of a `w`-byte integer produces on a little-endian host. -/
def encU : Nat → Nat → List Nat
  | 0, _ => []
  | w + 1, v => v % 256 :: encU w (v / 256)

/-- Little-endian two's-complement layout of a `w`-byte signed value. -/
def encI (w : Nat) (v : Int) : List Nat :=
  encU w ((v % ((2 : Int) ^ (8 * w))).toNat)

/-- Read a little-endian byte sequence back as a natural number. -/
def decodeLE : List Nat → Nat
  | [] => 0
  | b :: bs => b % 256 + 256 * decodeLE bs

/-- Reinterpret a 4-byte unsigned value as a C `int` (two's complement). -/
def toInt32 (n : Nat) : Int :=
  if n % 2 ^ 32 < 2 ^ 31 then ((n % 2 ^ 32 : Nat) : Int)
  else ((n % 2 ^ 32 : Nat) : Int) - 2 ^ 32

/-- Reinterpret an 8-byte unsigned value as a C `ssize_t`/`off_t`. -/
def toInt64 (n : Nat) : Int :=
  if n % 2 ^ 64 < 2 ^ 63 then ((n % 2 ^ 64 : Nat) : Int)
  else ((n % 2 ^ 64 : Nat) : Int) - 2 ^ 64

theorem encU_length (w : Nat) : ∀ v, (encU w v).length = w := by
  induction w with
  | zero => intro v; rfl
  | succ w ih => intro v; simp [encU, ih]

theorem encI_length (w : Nat) (v : Int) : (encI w v).length = w := by
  simp [encI, encU_length]

theorem decodeLE_encU (w : Nat) : ∀ v, decodeLE (encU w v) = v % 256 ^ w := by
  induction w with
  | zero => intro v; simp [encU, decodeLE, Nat.mod_one]
  | succ w ih =>
    intro v
    have h256 : (256 : Nat) ^ (w + 1) = 256 * 256 ^ w := by ring
    simp only [encU, decodeLE, ih, Nat.mod_mod_of_dvd v (dvd_refl 256)]
    rw [h256, Nat.mod_mul]

theorem decodeLE_lt (bs : List Nat) : decodeLE bs < 256 ^ bs.length := by
  induction bs with
  | nil => simp [decodeLE]
  | cons b bs ih =>
    have hb : b % 256 < 256 := Nat.mod_lt _ (by omega)
    have : (256 : Nat) ^ (b :: bs).length = 256 * 256 ^ bs.length := by
      simp [List.length_cons, pow_succ]; ring
    simp only [decodeLE, this]
    omega

theorem pow256_eq (w : Nat) : ((2 : Int) ^ (8 * w)) = ((256 : Nat) ^ w : Nat) := by
  induction w with
  | zero => simp
  | succ w ih =>
    have : 8 * (w + 1) = 8 * w + 8 := by ring
    rw [this, pow_add, ih]
    push_cast
    ring

theorem decodeLE_encI (w : Nat) (v : Int) :
    (decodeLE (encI w v) : Int) = v % ((2 : Int) ^ (8 * w)) := by
  have hpos : (0 : Int) < (2 : Int) ^ (8 * w) := by positivity
  have hnn : 0 ≤ v % ((2 : Int) ^ (8 * w)) := Int.emod_nonneg v (by omega)
  have hlt : v % ((2 : Int) ^ (8 * w)) < (2 : Int) ^ (8 * w) :=
    Int.emod_lt_of_pos v hpos
  have hltN : (v % ((2 : Int) ^ (8 * w))).toNat < 256 ^ w := by
    have := pow256_eq w
    omega
  simp only [encI, decodeLE_encU]
  rw [Nat.mod_eq_of_lt hltN]
  omega

theorem decodeLE_encI_of_nonneg (w : Nat) (v : Int)
    (h0 : 0 ≤ v) (h1 : v < (2 : Int) ^ (8 * w)) :
    (decodeLE (encI w v) : Int) = v := by
  rw [decodeLE_encI, Int.emod_eq_of_lt h0 h1]

theorem toInt32_decodeLE_encI (v : Int) (h0 : -2 ^ 31 ≤ v) (h1 : v < 2 ^ 31) :
    toInt32 (decodeLE (encI 4 v)) = v := by
  have h := decodeLE_encI 4 v
  simp only [toInt32]
  have h32 : ((2 : Int) ^ (8 * 4)) = 2 ^ 32 := by norm_num
  rw [h32] at h
  omega

theorem toInt64_decodeLE_encI (v : Int) (h0 : -2 ^ 63 ≤ v) (h1 : v < 2 ^ 63) :
    toInt64 (decodeLE (encI 8 v)) = v := by
  have h := decodeLE_encI 8 v
  simp only [toInt64]
  have h64 : ((2 : Int) ^ (8 * 8)) = 2 ^ 64 := by norm_num
  rw [h64] at h
  omega

/-!
## The directory tree and its serialization

`struct dirtreenode` has a NUL-terminated `name`, an `int num_subdirs` and
an array `subdirs` of that many children.  We model the node directly;
`num_subdirs` is the length of the child list and `name` is the byte
sequence of the C string (NUL-free by construction of `strlen`).
-/

/-- `struct dirtreenode` from dirtree.h: a name and its subdirectories. -/
inductive Dirtreenode where
  | mk (name : List Nat) (subdirs : List Dirtreenode)

def Dirtreenode.name : Dirtreenode → List Nat
  | .mk n _ => n

def Dirtreenode.subdirs : Dirtreenode → List Dirtreenode
  | .mk _ s => s

/-- `serializaTreeNode` from server.c: one node's header and name bytes,
`name_len:int32`, `num_subdirs:int32`, then the name. -/
def serializaTreeNode (t : Dirtreenode) : List Nat :=
  encI 4 t.name.length ++ encI 4 t.subdirs.length ++ t.name

mutual
/-- Sum over all nodes of the tree of `8 + name length`: the value the
source's `offset` accumulates (each node contributes
`root->len = 8 + strlen(name)`). -/
def treeSize : Dirtreenode → Nat
  | .mk name subs => 8 + name.length + treeSizeChildren subs

def treeSizeChildren : List Dirtreenode → Nat
  | [] => 0
  | t :: ts => treeSize t + treeSizeChildren ts
end

mutual
/-- `serializeTree` from server.c.  A leaf is just its node record.  For
an inner node the source mallocs a fixed `MAXMSGLEN` = 200-byte buffer
and unconditionally copies the `8 + strlen(name)`-byte node record into
it: when the record exceeds 200 bytes that `memcpy` overflows the heap
buffer — undefined behaviour, modelled as `none`.  The source also keeps
`offset`/`len` in C `int`s; once the accumulated length passes
`INT_MAX - MAXMSGLEN` the resize branch computes
`offset + tmp->len + size` past `INT_MAX` — signed overflow, also
`none`.  Within those bounds the resize branches only manage capacity
(every branch appends the child bytes at the current offset), so the
byte sequence produced is the node record followed by each child's
serialization in order. -/
def serializeTree : Dirtreenode → Option (List Nat)
  | .mk name subs =>
    if subs.length = 0 then some (serializaTreeNode (.mk name subs))
    else if MAXMSGLEN < 8 + name.length then none
    else if 2 ^ 31 ≤ treeSize (.mk name subs) + MAXMSGLEN then none
    else
      match serializeTreeSubdirs subs with
      | none => none
      | some rest => some (serializaTreeNode (.mk name subs) ++ rest)

/-- The `for` loop of `serializeTree` over `t->subdirs[0..num_subdirs-1]`;
undefined behaviour in any child's serialization propagates. -/
def serializeTreeSubdirs : List Dirtreenode → Option (List Nat)
  | [] => some []
  | t :: ts =>
    match serializeTree t with
    | none => none
    | some a =>
      match serializeTreeSubdirs ts with
      | none => none
      | some b => some (a ++ b)
end

mutual
/-- Modelled from the spec: each node emits, in order, `name_len:int32`,
`num_children:int32`, `name:bytes[name_len]`, then each child recursively,
in strict depth-first preorder over `children[0..num_children-1]`. -/
def preorderSerial : Dirtreenode → List Nat
  | .mk name subs =>
    encI 4 name.length ++ encI 4 subs.length ++ name ++ preorderSerialChildren subs

/-- Preorder emission of a child list, left to right. -/
def preorderSerialChildren : List Dirtreenode → List Nat
  | [] => []
  | t :: ts => preorderSerial t ++ preorderSerialChildren ts
end

/-!
## The operation executors

Each `serve*` function of server.c demarshals its arguments, invokes the
local filesystem call, and marshals one reply which it passes to a single
`send`.  The filesystem call is an oracle: the handler receives its result
and the `errno` value immediately after it returned.  `LibEnv` models the
effect on the global `errno` of the library calls the source performs
between the filesystem call and the `memcpy` that reads `&errno`.
-/

/-- `env k e` is the global errno after the k-th library call that the
handler performs between the filesystem call and the errno capture, given
that errno was `e` before that call (POSIX allows any library call to
modify errno). -/
def LibEnv : Type := Nat → Int → Int

/-- The identity environment: intervening calls leave errno unchanged. -/
def envId : LibEnv := fun _ e => e

/-- `serveOpen`: reply `[len=8, result:int32, err_code:int32]`, 12 bytes.
Between `open` and the errno capture the source calls `free(path)` and
`malloc(retval)` (env steps 0 and 1). -/
def serveOpen (env : LibEnv) (res errnoAfter : Int) : List Nat :=
  encI 4 8 ++ encI 4 res ++ encI 4 (env 1 (env 0 errnoAfter))

/-- `serveClose`: reply `[len=8, result:int32, err_code:int32]`.
One intervening call (`malloc(retval)`). -/
def serveClose (env : LibEnv) (res errnoAfter : Int) : List Nat :=
  encI 4 8 ++ encI 4 res ++ encI 4 (env 0 errnoAfter)

/-- `serveWrite`: reply `[len=12, result:ssize_t, err_code:int32]`.
Two intervening calls (`free(buff)`, `malloc(retval)`). -/
def serveWrite (env : LibEnv) (res errnoAfter : Int) : List Nat :=
  encI 4 12 ++ encI 8 res ++ encI 4 (env 1 (env 0 errnoAfter))

/-- `serveRead`: on `res != -1` the reply is
`[len=res+12, result:ssize_t, err_code:int32, data:bytes[res]]` where the
data bytes are copied from the scratch buffer the local `read` filled;
on `res == -1` it is `[len=12, result:ssize_t, err_code:int32]`.
One intervening call (`malloc(retval)`). -/
def serveRead (env : LibEnv) (res errnoAfter : Int) (buff : List Nat) : List Nat :=
  if res ≠ -1 then
    encI 4 (res + 12) ++ encI 8 res ++ encI 4 (env 0 errnoAfter) ++ buff.take res.toNat
  else
    encI 4 12 ++ encI 8 res ++ encI 4 (env 0 errnoAfter)

/-- `serveLseek`: reply `[len=12, result:off_t, err_code:int32]`. -/
def serveLseek (env : LibEnv) (res errnoAfter : Int) : List Nat :=
  encI 4 12 ++ encI 8 res ++ encI 4 (env 0 errnoAfter)

/-- `serveStat`: reply `[len=8+sizeof(struct stat), result:int32,
err_code:int32, stat_blob]`; the blob is the raw `struct stat` record. -/
def serveStat (env : LibEnv) (res errnoAfter : Int) (sb : List Nat) : List Nat :=
  encI 4 (8 + (statSize : Int)) ++ encI 4 res ++ encI 4 (env 0 errnoAfter) ++
    sb.take statSize

/-- `serveUnlink`: reply `[len=8, result:int32, err_code:int32]`. -/
def serveUnlink (env : LibEnv) (res errnoAfter : Int) : List Nat :=
  encI 4 8 ++ encI 4 res ++ encI 4 (env 0 errnoAfter)

/-- `serveGetdirentries`: the source always executes
`memcpy(retval + 16, buff, res)` with the `ssize_t res` converted to
`size_t`, then sends `16 + res` bytes.  When the conversion `res % 2^64`
exceeds the scratch buffer's extent the copy is out of bounds — undefined
behaviour, modelled as `none` (no well-defined reply is sent).  For
`res ≥ 0` the sent frame is `[len=res+12, result:ssize_t, err_code:int32,
data:bytes[res]]`. -/
def serveGetdirentries (env : LibEnv) (res errnoAfter : Int) (buff : List Nat) :
    Option (List Nat) :=
  let copyLen := (res % ((2 : Int) ^ 64)).toNat
  if copyLen ≤ buff.length then
    some (encI 4 (res + 12) ++ encI 8 res ++ encI 4 (env 0 errnoAfter) ++
      buff.take copyLen)
  else none

/-- `serveGetdirtree`: on NULL the reply is `[len=8, result:int32=1,
err_code:int32]` (errno is captured with no intervening library call —
the reply lives on the stack); on a tree the handler first runs
`serializeTree` — whose buffer overflow on oversized node records is
undefined behaviour (`none`), in which case no reply is produced — and
otherwise sends `[len=17+L, result:int32=0, tree_len:ssize_t=L,
err_code:int32, tree:bytes[L], 0x00]` where `L` is the serialized length
and the errno capture follows the allocations performed by
`serializeTree` (collapsed into env step 0). -/
def serveGetdirtree (env : LibEnv) (errnoAfter : Int) (t : Option Dirtreenode) :
    Option (List Nat) :=
  match t with
  | none => some (encI 4 8 ++ encI 4 1 ++ encI 4 errnoAfter)
  | some tr =>
    match serializeTree tr with
    | none => none
    | some s =>
      let len : Int := s.length
      some (encI 4 (17 + len) ++ encI 4 0 ++ encI 8 len ++
        encI 4 (env 0 errnoAfter) ++ s ++ [0])

/-!
## The frame reader `receiveAll`

The connection is an oracle `net`: `net k req` is what the k-th `recv`
returns when `req` bytes are requested — a nonempty chunk of at most
`req` bytes, `closed` (recv returned 0: the peer closed), or `fail`
(recv returned -1).  The loop is given fuel; `spinning` reports that the
fuel ran out with the loop guard still true, so an infinite-fuel run
never exits.
-/

/-- Outcome of one `recv` call. -/
inductive RecvOut where
  | data (chunk : List Nat)
  | closed
  | fail

/-- The transport oracle: result of the k-th `recv` for a request size. -/
def RANet : Type := Nat → Nat → RecvOut

/-- Result of running `receiveAll`: normal exit with the accumulated
bytes, process abort via `err(1,0)`, or fuel exhausted inside the loop. -/
inductive RAResult where
  | ok (received : List Nat)
  | crash
  | spinning (currlen : Int)
deriving DecidableEq

/-- The `while (currlen < bufSize)` loop of `receiveAll`.  State:
step index `k`, `currlen`, `maxSize` (all C `int`s), and the bytes
accumulated so far.  On `rv = 0` (`closed`) `currlen += 0` and the loop
re-enters; on `rv < 0` the source calls `err(1,0)`. -/
def receiveAllAux (net : RANet) (bufSize : Int) :
    Nat → Nat → Int → Int → List Nat → RAResult
  | 0, _, currlen, _, acc =>
    if currlen < bufSize then .spinning currlen else .ok acc
  | fuel + 1, k, currlen, maxSize, acc =>
    if currlen < bufSize then
      match net k maxSize.toNat with
      | .fail => .crash
      | .closed =>
        receiveAllAux net bufSize fuel (k + 1) currlen
          (if bufSize - currlen < maxSize then bufSize - currlen else maxSize) acc
      | .data chunk =>
        let currlen2 := currlen + chunk.length
        receiveAllAux net bufSize fuel (k + 1) currlen2
          (if bufSize - currlen2 < maxSize then bufSize - currlen2 else maxSize)
          (acc ++ chunk)
    else .ok acc

/-- `receiveAll` from server.c: `maxSize` starts at `min MAXMSGLEN
bufSize` and `currlen` at 0. -/
def receiveAll (net : RANet) (bufSize : Int) (fuel : Nat) : RAResult :=
  receiveAllAux net bufSize fuel 0 0
    (if bufSize < (MAXMSGLEN : Int) then bufSize else (MAXMSGLEN : Int)) []

/-!
## The dispatcher `serve` and the per-session loop of `main`
-/

/-- Result of the initial `recv(sessfd, op, 8, 0)` of the request header:
the peer closed (rv = 0), a transport error (rv < 0), or a complete
8-byte header. -/
inductive RecvHeader where
  | closed
  | fail
  | ok (hdr : List Nat)

/-- `op_id`: the first 4 header bytes reinterpreted as a C `int`
(`int *fID = (int*)op`). -/
def opIdOf (hdr : List Nat) : Int := toInt32 (decodeLE (hdr.take 4))

/-- `payload_len` as the source reads it: bytes 4..8 reinterpreted as a
C `int` (`int bufSize = *(fID+1)`). -/
def payloadLenOf (hdr : List Nat) : Int := toInt32 (decodeLE (hdr.drop 4))

/-- Observable outcome of one `serve` call: the size of the payload VLA
declared (`char buf[bufSize]`, also the byte target handed to
`receiveAll`) when the header was read, the reply frames passed to
`send`, whether the `undefined function` diagnostic was written to
stderr, and the return value (`none` means the handler aborted: `err` or
undefined behaviour). -/
structure ServeResult where
  alloc : Option Int
  sent : List (List Nat)
  diag : Bool
  retval : Option Int
deriving DecidableEq

/-- The bundle of oracle inputs one request consumes: the errno
environment, the filesystem call's result and the errno right after it,
the bytes the call produced (read/getdirentries scratch, stat record),
and the `getdirtree` result. -/
structure FsOracle where
  env : LibEnv
  res : Int
  errnoAfter : Int
  outBytes : List Nat
  tree : Option Dirtreenode

/-- The `if (*fID == 0) ... else` chain of `serve`: the frames sent, the
diagnostic flag, and the return value (`none` = the handler aborted:
undefined behaviour inside an op executor). -/
def dispatch (fID : Int) (o : FsOracle) : List (List Nat) × Bool × Option Int :=
  if fID = 0 then ([serveOpen o.env o.res o.errnoAfter], false, some 0)
  else if fID = 1 then ([serveClose o.env o.res o.errnoAfter], false, some 0)
  else if fID = 2 then ([serveWrite o.env o.res o.errnoAfter], false, some 0)
  else if fID = 3 then ([serveRead o.env o.res o.errnoAfter o.outBytes], false, some 0)
  else if fID = 4 then ([serveLseek o.env o.res o.errnoAfter], false, some 0)
  else if fID = 5 then ([serveStat o.env o.res o.errnoAfter o.outBytes], false, some 0)
  else if fID = 6 then ([serveUnlink o.env o.res o.errnoAfter], false, some 0)
  else if fID = 7 then
    match serveGetdirentries o.env o.res o.errnoAfter o.outBytes with
    | some r => ([r], false, some 0)
    | none => ([], false, none)
  else if fID = 8 then
    match serveGetdirtree o.env o.errnoAfter o.tree with
    | some r => ([r], false, some 0)
    | none => ([], false, none)
  else ([], true, some (-1))

/-- `serve` from server.c.  Reads the 8-byte header (rv = 0 returns -1,
rv < 0 aborts via `err`), then — before looking at the op_id — declares
`char buf[bufSize]` and hands `bufSize` to `receiveAll`, and finally
dispatches on `*fID`; an op_id outside 0..8 logs `undefined function`
and returns -1 with no reply. -/
def serve (h : RecvHeader) (o : FsOracle) : ServeResult :=
  match h with
  | .closed => ⟨none, [], false, some (-1)⟩
  | .fail => ⟨none, [], false, none⟩
  | .ok hdr =>
    let d := dispatch (opIdOf hdr) o
    ⟨some (payloadLenOf hdr), d.1, d.2.1, d.2.2⟩

/-- How the per-connection `while (1)` loop of `main`'s forked child
ends. -/
inductive SessionEnd where
  | closedSession
  | crashed
  | running
deriving DecidableEq

/-- The child's loop: call `serve` until it returns -1, then
`close(sessfd); exit(0)`.  `rs k` is the result of the k-th `serve`
call. -/
def sessionLoop (rs : Nat → ServeResult) : Nat → Nat → SessionEnd
  | 0, _ => .running
  | fuel + 1, k =>
    match (rs k).retval with
    | none => .crashed
    | some r => if r = -1 then .closedSession else sessionLoop rs fuel (k + 1)

/-- Well-formedness of the oracle: the contracts POSIX gives the results
of the underlying calls (`read`/`getdirentries` return -1 or a count no
larger than the scratch buffer; a `stat` record has `sizeof(struct
stat)` bytes; `server.c` stores a serialized tree length in a C `int`). -/
def FsOracle.WF (opId : Int) (o : FsOracle) : Prop :=
  (opId = 3 → -1 ≤ o.res ∧ o.res < 2 ^ 31 ∧ o.res.toNat ≤ o.outBytes.length) ∧
  (opId = 5 → statSize ≤ o.outBytes.length) ∧
  (opId = 7 → -1 ≤ o.res ∧ o.res < 2 ^ 31 ∧ (0 ≤ o.res → o.res.toNat ≤ o.outBytes.length)) ∧
  (opId = 8 → ∀ t, o.tree = some t →
    ∃ s, serializeTree t = some s ∧ s.length + 17 < 2 ^ 31)

/-!
## Field-extraction helpers
-/

theorem encI_append_take (w : Nat) (v : Int) (rest : List Nat) :
    (encI w v ++ rest).take w = encI w v :=
  List.take_left' (encI_length w v)

theorem encI_append_drop (w : Nat) (v : Int) (rest : List Nat) :
    (encI w v ++ rest).drop w = rest :=
  List.drop_left' (encI_length w v)

theorem encI_take_self (w : Nat) (v : Int) : (encI w v).take w = encI w v := by
  have h := List.take_length (encI w v)
  rwa [encI_length w v] at h

theorem toInt32_decodeLE_encI_small (v : Int) (h0 : 0 ≤ v) (h1 : v < 2 ^ 31) :
    toInt32 (decodeLE (encI 4 v)) = v :=
  toInt32_decodeLE_encI v (by omega) h1

/-- A reply of the form `len-field ++ rest` satisfies the frame-length
invariant (the first 4 bytes equal the total byte count minus 4) exactly
when the encoded `len` equals `rest`'s length. -/
theorem replyLen_ok (L : Int) (rest : List Nat) (h0 : 0 ≤ L) (h1 : L < 2 ^ 32)
    (hlen : rest.length = L.toNat) :
    decodeLE ((encI 4 L ++ rest).take 4) + 4 = (encI 4 L ++ rest).length := by
  rw [encI_append_take]
  have hd := decodeLE_encI_of_nonneg 4 L h0 (by norm_num; omega)
  have hL : (encI 4 L).length = 4 := encI_length 4 L
  simp only [List.length_append, hL, hlen]
  omega

/-!
## The claims
-/

/-- C6 counterexample: on a tree whose internal node is named by 193
bytes (reachable: Linux allows directory names up to NAME_MAX = 255)
the node record of 8 + 193 = 201 bytes overflows the 200-byte buffer the
source mallocs before copying it — undefined behaviour, so the
serialization does not produce the preorder byte sequence the claim
asserts for every finite tree. -/
theorem c6_overflow_counterexample :
    serializeTree (.mk (List.replicate 193 97) [.mk [98] []]) ≠
      some (preorderSerial (.mk (List.replicate 193 97) [.mk [98] []])) := by
  have hlen : (List.replicate 193 (97 : Nat)).length = 193 :=
    List.length_replicate 193 97
  simp only [serializeTree, hlen]
  rw [if_neg (by simp), if_pos (by norm_num [MAXMSGLEN])]
  simp

/-- C6 (amended): whenever `serializeTree` completes — no internal
node's record of `8 + name length` bytes exceeds the 200-byte initial
buffer and the int length bookkeeping stays below 2^31, so the source's
behaviour is defined — its output is the strict depth-first preorder
sequence in which each node emits, in order, `name_len:int32`,
`num_children:int32`, the name bytes, and then the serialization of
each child in order; and the output's length equals the sum over all
nodes of `8 + name length`. -/
theorem c6_serializeTree_preorder :
    ∀ t s, serializeTree t = some s →
      s = preorderSerial t ∧ s.length = treeSize t := by
  refine serializeTree.induct
    (fun t => ∀ s, serializeTree t = some s →
      s = preorderSerial t ∧ s.length = treeSize t)
    (fun ts => ∀ s, serializeTreeSubdirs ts = some s →
      s = preorderSerialChildren ts ∧ s.length = treeSizeChildren ts)
    ?_ ?_ ?_ ?_ ?_ ?_ ?_ ?_ ?_
  · intro n subs hlen s hs
    have hnil : subs = [] := List.length_eq_zero.mp hlen
    subst hnil
    simp only [serializeTree] at hs
    rw [if_pos hlen] at hs
    have hx := Option.some.inj hs
    subst hx
    constructor
    · simp [preorderSerial, preorderSerialChildren, serializaTreeNode,
        Dirtreenode.name, Dirtreenode.subdirs]
    · simp [serializaTreeNode, treeSize, treeSizeChildren, encI_length,
        Dirtreenode.name, Dirtreenode.subdirs]
      omega
  · intro n subs hlen hname s hs
    simp only [serializeTree] at hs
    rw [if_neg hlen, if_pos hname] at hs
    simp at hs
  · intro n subs hlen hname hsize s hs
    simp only [serializeTree] at hs
    rw [if_neg hlen, if_neg hname, if_pos hsize] at hs
    simp at hs
  · intro n subs hlen hname hsize hnone _ s hs
    simp only [serializeTree] at hs
    rw [if_neg hlen, if_neg hname, if_neg hsize, hnone] at hs
    simp at hs
  · intro n subs hlen hname hsize rest hrest ih s hs
    simp only [serializeTree] at hs
    rw [if_neg hlen, if_neg hname, if_neg hsize, hrest] at hs
    have hx := Option.some.inj hs
    subst hx
    obtain ⟨hre, hrl⟩ := ih rest hrest
    constructor
    · simp only [hre, preorderSerial, serializaTreeNode,
        Dirtreenode.name, Dirtreenode.subdirs, List.append_assoc]
    · simp only [List.length_append, serializaTreeNode, encI_length, hrl,
        treeSize, Dirtreenode.name, Dirtreenode.subdirs]
  · intro s hs
    simp only [serializeTreeSubdirs, Option.some.injEq] at hs
    subst hs
    exact ⟨rfl, rfl⟩
  · intro t ts hnone _ s hs
    simp [serializeTreeSubdirs, hnone] at hs
  · intro t ts a ha hnone _ _ s hs
    simp [serializeTreeSubdirs, ha, hnone] at hs
  · intro t ts a ha b hb ih1 ih2 s hs
    simp only [serializeTreeSubdirs, ha, hb, Option.some.injEq] at hs
    subst hs
    obtain ⟨hae, hal⟩ := ih1 a ha
    obtain ⟨hbe, hbl⟩ := ih2 b hb
    constructor
    · simp [preorderSerialChildren, hae, hbe]
    · simp [treeSizeChildren, List.length_append, hal, hbl]

/-- C6 witness: the spec's scenario-6 tree (a directory `a` containing
subdir `c` with entry `d`, and entry `b`) serializes to the preorder
sequence of the claimed length. -/
theorem c6_serializeTree_preorder_witness :
    ([1, 0, 0, 0, 2, 0, 0, 0, 97, 1, 0, 0, 0, 1, 0, 0, 0, 99,
      1, 0, 0, 0, 0, 0, 0, 0, 100, 1, 0, 0, 0, 0, 0, 0, 0, 98] : List Nat) =
      preorderSerial (.mk [97] [.mk [99] [.mk [100] []], .mk [98] []]) ∧
    ([1, 0, 0, 0, 2, 0, 0, 0, 97, 1, 0, 0, 0, 1, 0, 0, 0, 99,
      1, 0, 0, 0, 0, 0, 0, 0, 100, 1, 0, 0, 0, 0, 0, 0, 0, 98] : List Nat).length =
      treeSize (.mk [97] [.mk [99] [.mk [100] []], .mk [98] []]) :=
  c6_serializeTree_preorder (.mk [97] [.mk [99] [.mk [100] []], .mk [98] []])
    [1, 0, 0, 0, 2, 0, 0, 0, 97, 1, 0, 0, 0, 1, 0, 0, 0, 99,
      1, 0, 0, 0, 0, 0, 0, 0, 100, 1, 0, 0, 0, 0, 0, 0, 0, 98] (by decide)

/-- C4: for every read request, when the underlying read returns
`res ≥ 0` the reply carries `result:ssize_t`, `err_code:int32` and
exactly `res` data bytes — the bytes the local read produced; when it
returns `res = -1` the reply carries `result` and `err_code` and no data
bytes.  The data byte count is determined by the `result` field, not the
frame length. -/
theorem c4_read_reply (env : LibEnv) (res e : Int) (buff : List Nat)
    (hres : -1 ≤ res) (hhi : res < 2 ^ 31) (hbuf : res.toNat ≤ buff.length) :
    toInt64 (decodeLE (((serveRead env res e buff).drop 4).take 8)) = res ∧
    ((serveRead env res e buff).drop 12).take 4 = encI 4 (env 0 e) ∧
    (0 ≤ res →
      (serveRead env res e buff).drop 16 = buff.take res.toNat ∧
      ((serveRead env res e buff).drop 16).length = res.toNat ∧
      (serveRead env res e buff).length = 16 + res.toNat) ∧
    (res = -1 →
      (serveRead env res e buff).drop 16 = [] ∧
      (serveRead env res e buff).length = 16) := by
  have h31 : (2 : Int) ^ 31 = 2147483648 := by norm_num
  have h63 : (2 : Int) ^ 63 = 9223372036854775808 := by norm_num
  by_cases hc : res = -1
  · subst hc
    have hr : serveRead env (-1) e buff =
        encI 4 12 ++ (encI 8 (-1) ++ encI 4 (env 0 e)) := by
      simp [serveRead]
    have hlen : (serveRead env (-1) e buff).length = 16 := by
      simp [hr, List.length_append, encI_length]
    have h4 : (serveRead env (-1) e buff).drop 4 =
        encI 8 (-1) ++ encI 4 (env 0 e) := by
      rw [hr, encI_append_drop]
    have h12 : (serveRead env (-1) e buff).drop 12 = encI 4 (env 0 e) := by
      have := List.drop_drop 8 4 (serveRead env (-1) e buff)
      rw [h4, encI_append_drop] at this
      rw [← this]
    refine ⟨?_, ?_, ?_, ?_⟩
    · rw [h4, encI_append_take]
      exact toInt64_decodeLE_encI (-1) (by omega) (by omega)
    · rw [h12, encI_take_self]
    · intro h0; omega
    · intro _
      constructor
      · have := List.drop_length (serveRead env (-1) e buff)
        rwa [hlen] at this
      · exact hlen
  · have h0 : 0 ≤ res := by omega
    have hr : serveRead env res e buff =
        encI 4 (res + 12) ++
          (encI 8 res ++ (encI 4 (env 0 e) ++ buff.take res.toNat)) := by
      simp [serveRead, hc]
    have htk : (buff.take res.toNat).length = res.toNat := by
      simp [List.length_take]
      omega
    have hlen : (serveRead env res e buff).length = 16 + res.toNat := by
      simp [hr, List.length_append, encI_length, htk]
      omega
    have h4 : (serveRead env res e buff).drop 4 =
        encI 8 res ++ (encI 4 (env 0 e) ++ buff.take res.toNat) := by
      rw [hr, encI_append_drop]
    have h12 : (serveRead env res e buff).drop 12 =
        encI 4 (env 0 e) ++ buff.take res.toNat := by
      have := List.drop_drop 8 4 (serveRead env res e buff)
      rw [h4, encI_append_drop] at this
      rw [← this]
    have h16 : (serveRead env res e buff).drop 16 = buff.take res.toNat := by
      have := List.drop_drop 4 12 (serveRead env res e buff)
      rw [h12, encI_append_drop] at this
      rw [← this]
    refine ⟨?_, ?_, ?_, ?_⟩
    · rw [h4, encI_append_take]
      exact toInt64_decodeLE_encI res (by omega) (by omega)
    · rw [h12, encI_append_take]
    · intro _
      exact ⟨h16, by rw [h16, htk], hlen⟩
    · intro hx; exact absurd hx hc

/-- C4 witness: a 5-byte successful read of "hello" and the concrete
failure case both instantiate the theorem. -/
theorem c4_read_reply_witness :
    toInt64 (decodeLE (((serveRead envId 5 0 [104, 101, 108, 108, 111]).drop 4).take 8)) = 5 ∧
    ((serveRead envId 5 0 [104, 101, 108, 108, 111]).drop 12).take 4 = encI 4 (envId 0 0) ∧
    ((0 : Int) ≤ 5 →
      (serveRead envId 5 0 [104, 101, 108, 108, 111]).drop 16 =
        [104, 101, 108, 108, 111].take (5 : Int).toNat ∧
      ((serveRead envId 5 0 [104, 101, 108, 108, 111]).drop 16).length = (5 : Int).toNat ∧
      (serveRead envId 5 0 [104, 101, 108, 108, 111]).length = 16 + (5 : Int).toNat) ∧
    ((5 : Int) = -1 →
      (serveRead envId 5 0 [104, 101, 108, 108, 111]).drop 16 = [] ∧
      (serveRead envId 5 0 [104, 101, 108, 108, 111]).length = 16) :=
  c4_read_reply envId 5 0 [104, 101, 108, 108, 111]
    (by norm_num) (by norm_num) (by norm_num)

/-- C5 counterexample: a getdirtree request for a tree whose internal
node carries a 200-byte name (8 + 200 > 200) drives `serializeTree` into
its buffer overflow — undefined behaviour — so the handler produces no
reply of the shape the claim asserts for every returned tree. -/
theorem c5_getdirtree_overflow :
    serveGetdirtree envId 2 (some (.mk (List.replicate 200 97) [.mk [99] []])) =
      none := by
  have hlen : (List.replicate 200 (97 : Nat)).length = 200 :=
    List.length_replicate 200 97
  simp only [serveGetdirtree, serializeTree, hlen]
  rw [if_neg (by simp), if_pos (by norm_num [MAXMSGLEN])]

/-- C5 (amended): for every getdirtree request, when the local
getdirtree returns NULL the reply is `result:int32 = 1` (error
sentinel) then `err_code:int32`; when it returns a tree whose
serialization completes (no internal node record over the 200-byte
initial buffer, int bookkeeping in range), the reply is
`result:int32 = 0`, then `tree_len:ssize_t`, then `err_code:int32`
(after `tree_len`, unlike all other operations), then exactly
`tree_len` serialized-tree bytes, then one trailing `0x00` byte; on a
tree whose serialization overflows, the handler's behaviour is
undefined and no reply is produced. -/
theorem c5_getdirtree_reply (env : LibEnv) (e : Int) (t : Dirtreenode)
    (s : List Nat) (hser : serializeTree t = some s)
    (hL : s.length + 17 < 2 ^ 31) :
    (∃ rn, serveGetdirtree env e none = some rn ∧
      rn.length = 12 ∧
      toInt32 (decodeLE ((rn.drop 4).take 4)) = 1 ∧
      (rn.drop 8).take 4 = encI 4 e) ∧
    (∃ r, serveGetdirtree env e (some t) = some r ∧
      r.length = 21 + s.length ∧
      decodeLE (r.take 4) = 17 + s.length ∧
      toInt32 (decodeLE ((r.drop 4).take 4)) = 0 ∧
      toInt64 (decodeLE ((r.drop 8).take 8)) = s.length ∧
      (r.drop 16).take 4 = encI 4 (env 0 e) ∧
      (r.drop 20).take s.length = s ∧
      r.drop (20 + s.length) = [0]) := by
  constructor
  · have h4 : (encI 4 8 ++ (encI 4 1 ++ encI 4 e)).drop 4 =
        encI 4 1 ++ encI 4 e := encI_append_drop 4 8 _
    have h8 : (encI 4 8 ++ (encI 4 1 ++ encI 4 e)).drop 8 = encI 4 e := by
      have hd := List.drop_drop 4 4 (encI 4 8 ++ (encI 4 1 ++ encI 4 e))
      rw [h4, encI_append_drop] at hd
      rw [← hd]
    refine ⟨encI 4 8 ++ (encI 4 1 ++ encI 4 e),
      by simp [serveGetdirtree, List.append_assoc],
      by simp [List.length_append, encI_length], ?_, ?_⟩
    · rw [h4, encI_append_take]
      exact toInt32_decodeLE_encI_small 1 (by omega) (by omega)
    · rw [h8, encI_take_self]
  · set L : Int := (s.length : Int) with hLdef
    have h4 : (encI 4 (17 + L) ++ (encI 4 0 ++ (encI 8 L ++
        (encI 4 (env 0 e) ++ (s ++ [0]))))).drop 4 =
        encI 4 0 ++ (encI 8 L ++ (encI 4 (env 0 e) ++ (s ++ [0]))) :=
      encI_append_drop 4 (17 + L) _
    have h8 : (encI 4 (17 + L) ++ (encI 4 0 ++ (encI 8 L ++
        (encI 4 (env 0 e) ++ (s ++ [0]))))).drop 8 =
        encI 8 L ++ (encI 4 (env 0 e) ++ (s ++ [0])) := by
      have hd := List.drop_drop 4 4 (encI 4 (17 + L) ++ (encI 4 0 ++
        (encI 8 L ++ (encI 4 (env 0 e) ++ (s ++ [0])))))
      rw [h4, encI_append_drop] at hd
      rw [← hd]
    have h16 : (encI 4 (17 + L) ++ (encI 4 0 ++ (encI 8 L ++
        (encI 4 (env 0 e) ++ (s ++ [0]))))).drop 16 =
        encI 4 (env 0 e) ++ (s ++ [0]) := by
      have hd := List.drop_drop 8 8 (encI 4 (17 + L) ++ (encI 4 0 ++
        (encI 8 L ++ (encI 4 (env 0 e) ++ (s ++ [0])))))
      rw [h8, encI_append_drop] at hd
      rw [← hd]
    have h20 : (encI 4 (17 + L) ++ (encI 4 0 ++ (encI 8 L ++
        (encI 4 (env 0 e) ++ (s ++ [0]))))).drop 20 = s ++ [0] := by
      have hd := List.drop_drop 4 16 (encI 4 (17 + L) ++ (encI 4 0 ++
        (encI 8 L ++ (encI 4 (env 0 e) ++ (s ++ [0])))))
      rw [h16, encI_append_drop] at hd
      rw [← hd]
    have hfin : (encI 4 (17 + L) ++ (encI 4 0 ++ (encI 8 L ++
        (encI 4 (env 0 e) ++ (s ++ [0]))))).drop (20 + s.length) = [0] := by
      have hd := List.drop_drop s.length 20 (encI 4 (17 + L) ++ (encI 4 0 ++
        (encI 8 L ++ (encI 4 (env 0 e) ++ (s ++ [0])))))
      rw [h20, List.drop_left' rfl] at hd
      rw [← hd]
    refine ⟨encI 4 (17 + L) ++ (encI 4 0 ++ (encI 8 L ++
        (encI 4 (env 0 e) ++ (s ++ [0])))), ?_, ?_, ?_, ?_, ?_, ?_, ?_, hfin⟩
    · simp [serveGetdirtree, hser, List.append_assoc, hLdef]
    · simp [List.length_append, encI_length]
      omega
    · rw [encI_append_take]
      have := decodeLE_encI_of_nonneg 4 (17 + L) (by omega) (by norm_num; omega)
      omega
    · rw [h4, encI_append_take]
      exact toInt32_decodeLE_encI_small 0 (by omega) (by omega)
    · rw [h8, encI_append_take]
      exact toInt64_decodeLE_encI L (by omega) (by omega)
    · rw [h16, encI_append_take]
    · rw [h20, List.take_left' rfl]

/-- C5 witness: the one-node tree named "a" instantiates the theorem. -/
theorem c5_getdirtree_reply_witness :
    (∃ rn, serveGetdirtree envId 2 none = some rn ∧
      rn.length = 12 ∧
      toInt32 (decodeLE ((rn.drop 4).take 4)) = 1 ∧
      (rn.drop 8).take 4 = encI 4 2) ∧
    (∃ r, serveGetdirtree envId 2 (some (.mk [97] [])) = some r ∧
      r.length = 21 + ([1, 0, 0, 0, 0, 0, 0, 0, 97] : List Nat).length ∧
      decodeLE (r.take 4) = 17 + ([1, 0, 0, 0, 0, 0, 0, 0, 97] : List Nat).length ∧
      toInt32 (decodeLE ((r.drop 4).take 4)) = 0 ∧
      toInt64 (decodeLE ((r.drop 8).take 8)) = ([1, 0, 0, 0, 0, 0, 0, 0, 97] : List Nat).length ∧
      (r.drop 16).take 4 = encI 4 (envId 0 2) ∧
      (r.drop 20).take ([1, 0, 0, 0, 0, 0, 0, 0, 97] : List Nat).length =
        [1, 0, 0, 0, 0, 0, 0, 0, 97] ∧
      r.drop (20 + ([1, 0, 0, 0, 0, 0, 0, 0, 97] : List Nat).length) = [0]) :=
  c5_getdirtree_reply envId 2 (.mk [97] []) [1, 0, 0, 0, 0, 0, 0, 0, 97]
    (by decide) (by decide)

/-- C2 counterexample: the source reads the global errno only after the
intervening `free(path)`/`malloc(retval)` calls, which POSIX permits to
modify errno.  In an environment where the first intervening call sets
errno to 12, the err_code field `serveOpen` sends for a failed open that
had set errno to 2 (ENOENT) is not 2: the captured value is not the
error number as it stood when `open` returned. -/
theorem c2_errno_clobbered :
    toInt32 (decodeLE (((serveOpen (fun _ _ => 12) (-1) 2).drop 8).take 4)) ≠ 2 := by
  decide

/-- C2 (amended): the err_code value placed in the reply is the global
errno as it stands when the reply buffer is filled — after the
intervening `free`/`malloc` calls; it equals the error number set by the
underlying call at the moment it returned exactly when those intervening
calls leave errno unchanged (shown here for `serveOpen` and
`serveClose`, the operations the claim cites). -/
theorem c2_errno_capture (env : LibEnv) (res e : Int)
    (hpres : ∀ k x, env k x = x) (h0 : 0 ≤ e) (h1 : e < 2 ^ 31) :
    toInt32 (decodeLE (((serveOpen env res e).drop 8).take 4)) = e ∧
    toInt32 (decodeLE (((serveClose env res e).drop 8).take 4)) = e := by
  have hopen : serveOpen env res e = encI 4 8 ++ (encI 4 res ++ encI 4 e) := by
    simp [serveOpen, hpres]
  have hclose : serveClose env res e = encI 4 8 ++ (encI 4 res ++ encI 4 e) := by
    simp [serveClose, hpres]
  have key : ∀ r : List Nat, r = encI 4 8 ++ (encI 4 res ++ encI 4 e) →
      toInt32 (decodeLE ((r.drop 8).take 4)) = e := by
    intro r hr
    have h4 : r.drop 4 = encI 4 res ++ encI 4 e := by
      rw [hr, encI_append_drop]
    have h8 : r.drop 8 = encI 4 e := by
      have := List.drop_drop 4 4 r
      rw [h4, encI_append_drop] at this
      rw [← this]
    rw [h8, encI_take_self]
    exact toInt32_decodeLE_encI_small e h0 h1
  exact ⟨key _ hopen, key _ hclose⟩

/-- C2 witness: with the identity environment and errno 2 from a failed
call, both cited operations send err_code 2. -/
theorem c2_errno_capture_witness :
    toInt32 (decodeLE (((serveOpen envId (-1) 2).drop 8).take 4)) = 2 ∧
    toInt32 (decodeLE (((serveClose envId (-1) 2).drop 8).take 4)) = 2 :=
  c2_errno_capture envId (-1) 2 (fun _ _ => rfl) (by norm_num) (by norm_num)

/-- C7 (the code at the claim's own failing input): for
`getdirentries(-10, buf, 4096, &basep)` the local call returns -1 with
errno 9 (EBADF); `serveGetdirentries` then executes
`memcpy(retval + 16, buff, res)` whose size argument is the `size_t`
conversion of -1, an out-of-bounds copy of 2^64 - 1 bytes from the
4096-byte scratch buffer — undefined behaviour, so no reply of the
claimed shape is produced and the session does not continue. -/
theorem c7_getdirentries_failure :
    serveGetdirentries envId (-1) 9 (List.replicate 4096 0) = none := by
  have hlen : (List.replicate 4096 (0 : Nat)).length = 4096 :=
    List.length_replicate 4096 0
  simp only [serveGetdirentries, hlen]
  rw [if_neg]
  decide

/-- C3 (the code at the claim's failing input): when the peer closes the
connection before the target count arrives — every `recv` returns 0 —
`receiveAll` with target 8 never leaves its loop: `currlen += 0` keeps
the guard true, so for every amount of fuel the loop is still spinning
with 0 bytes accumulated, instead of failing with a peer-closed error. -/
theorem c3_receiveAll_spins_on_close :
    ∀ fuel, receiveAll (fun _ _ => .closed) 8 fuel = .spinning 0 := by
  have key : ∀ fuel k,
      receiveAllAux (fun _ _ => .closed) 8 fuel k 0 8 [] = .spinning 0 := by
    intro fuel
    induction fuel with
    | zero =>
      intro k
      simp [receiveAllAux]
    | succ n ih =>
      intro k
      rw [receiveAllAux]
      simp only [if_pos (by omega : (0 : Int) < 8)]
      have hm : ((8 : Int) - 0 < 8) = False := by simp
      simp only [hm, if_false, sub_zero, if_neg (lt_irrefl (8 : Int))]
      exact ih (k + 1)
  intro fuel
  have hinit : (if (8 : Int) < (MAXMSGLEN : Int) then (8 : Int) else (MAXMSGLEN : Int)) = 8 := by
    simp [MAXMSGLEN]
  rw [receiveAll, hinit]
  exact key fuel 0

/-- C8: for a request frame whose op_id is not in 0..8 the dispatcher
writes the `undefined function` diagnostic, sends no reply frame, and
returns the session-finished value -1, so the per-connection handler
loop exits and the session is closed. -/
theorem c8_unknown_op (hdr : List Nat) (o : FsOracle)
    (hop : opIdOf hdr < 0 ∨ 8 < opIdOf hdr) :
    (serve (.ok hdr) o).sent = [] ∧
    (serve (.ok hdr) o).diag = true ∧
    (serve (.ok hdr) o).retval = some (-1) ∧
    sessionLoop (fun _ => serve (.ok hdr) o) 1 0 = .closedSession := by
  have hd : dispatch (opIdOf hdr) o = ([], true, some (-1)) := by
    rw [dispatch]
    repeat rw [if_neg (by omega)]
  have hs : serve (.ok hdr) o =
      ⟨some (payloadLenOf hdr), [], true, some (-1)⟩ := by
    simp [serve, hd]
  refine ⟨by rw [hs], by rw [hs], by rw [hs], ?_⟩
  simp [sessionLoop, hs]

/-- C8 witness: op_id 9. -/
theorem c8_unknown_op_witness :
    (serve (.ok [9, 0, 0, 0, 0, 0, 0, 0]) ⟨envId, 0, 0, [], none⟩).sent = [] ∧
    (serve (.ok [9, 0, 0, 0, 0, 0, 0, 0]) ⟨envId, 0, 0, [], none⟩).diag = true ∧
    (serve (.ok [9, 0, 0, 0, 0, 0, 0, 0]) ⟨envId, 0, 0, [], none⟩).retval = some (-1) ∧
    sessionLoop (fun _ => serve (.ok [9, 0, 0, 0, 0, 0, 0, 0]) ⟨envId, 0, 0, [], none⟩) 1 0 =
      .closedSession :=
  c8_unknown_op [9, 0, 0, 0, 0, 0, 0, 0] ⟨envId, 0, 0, [], none⟩
    (Or.inr (by decide))

/-- C9: when the 8-byte header read returns zero bytes because the peer
closed the connection, the dispatcher returns the session-finished value
-1 without sending a reply, without a diagnostic and without aborting
(`err` fires only on rv < 0), and the handler loop exits cleanly.  The
listening parent process is a separate fork and keeps accepting. -/
theorem c9_header_peer_close (o : FsOracle) :
    (serve .closed o).sent = [] ∧
    (serve .closed o).retval = some (-1) ∧
    (serve .closed o).diag = false ∧
    sessionLoop (fun _ => serve .closed o) 1 0 = .closedSession := by
  refine ⟨rfl, rfl, rfl, ?_⟩
  simp [sessionLoop, serve]

/-- C10 counterexample: the claim quantifies over every value of the
payload_len header field, but the source reads the field through
`int bufSize = *(fID+1)`.  At payload_len = 2^31 the declared VLA size is
the int reinterpretation -2^31, not the field's value, so the handler
does not allocate a buffer of the declared size. -/
theorem c10_signed_reinterpretation :
    decodeLE ([0, 0, 0, 0, 0, 0, 0, 128].drop 4) = 2 ^ 31 ∧
    (serve (.ok [0, 0, 0, 0, 0, 0, 0, 128]) ⟨envId, 0, 0, [], none⟩).alloc ≠
      some ((2 : Int) ^ 31) := by
  decide

/-- C10 (amended): the session handler never checks the declared
payload_len against any ceiling: for every complete header it declares
the payload VLA — and hands `receiveAll` — exactly the int32
reinterpretation of the field.  For payload_len < 2^31 that is exactly
the declared value; for payload_len ≥ 2^31 the reinterpretation is
negative, so the VLA declaration is undefined behaviour and the receive
loop exits at once having read nothing. -/
theorem c10_no_ceiling (hdr : List Nat) (o : FsOracle) (net : RANet) (fuel : Nat)
    (hlen : hdr.length = 8) :
    (serve (.ok hdr) o).alloc = some (payloadLenOf hdr) ∧
    (decodeLE (hdr.drop 4) < 2 ^ 31 →
      (serve (.ok hdr) o).alloc = some ((decodeLE (hdr.drop 4) : Nat) : Int)) ∧
    (2 ^ 31 ≤ decodeLE (hdr.drop 4) →
      payloadLenOf hdr < 0 ∧
      receiveAll net (payloadLenOf hdr) fuel = .ok []) := by
  have hd4 : (hdr.drop 4).length = 4 := by
    rw [List.length_drop, hlen]
  have hlt : decodeLE (hdr.drop 4) < 2 ^ 32 := by
    have := decodeLE_lt (hdr.drop 4)
    rw [hd4] at this
    norm_num at this
    omega
  refine ⟨rfl, ?_, ?_⟩
  · intro hsmall
    have : payloadLenOf hdr = ((decodeLE (hdr.drop 4) : Nat) : Int) := by
      rw [payloadLenOf, toInt32]
      rw [if_pos (by omega)]
      congr 1
      omega
    rw [← this]
    rfl
  · intro hbig
    have hneg : payloadLenOf hdr < 0 := by
      rw [payloadLenOf, toInt32]
      rw [if_neg (by omega)]
      have : decodeLE (hdr.drop 4) % 2 ^ 32 = decodeLE (hdr.drop 4) := by omega
      rw [this]
      omega
    refine ⟨hneg, ?_⟩
    rw [receiveAll]
    cases fuel with
    | zero =>
      rw [receiveAllAux]
      rw [if_neg (by omega)]
    | succ n =>
      rw [receiveAllAux]
      rw [if_neg (by omega)]

/-- C10 witness: a header declaring payload_len 5 allocates exactly 5
and passes 5 to the receive loop. -/
theorem c10_no_ceiling_witness :
    (serve (.ok [3, 0, 0, 0, 5, 0, 0, 0]) ⟨envId, 0, 0, [], none⟩).alloc =
      some (payloadLenOf [3, 0, 0, 0, 5, 0, 0, 0]) ∧
    (decodeLE ([3, 0, 0, 0, 5, 0, 0, 0].drop 4) < 2 ^ 31 →
      (serve (.ok [3, 0, 0, 0, 5, 0, 0, 0]) ⟨envId, 0, 0, [], none⟩).alloc =
        some ((decodeLE ([3, 0, 0, 0, 5, 0, 0, 0].drop 4) : Nat) : Int)) ∧
    (2 ^ 31 ≤ decodeLE ([3, 0, 0, 0, 5, 0, 0, 0].drop 4) →
      payloadLenOf [3, 0, 0, 0, 5, 0, 0, 0] < 0 ∧
      receiveAll (fun _ _ => .closed) (payloadLenOf [3, 0, 0, 0, 5, 0, 0, 0]) 0 = .ok []) :=
  c10_no_ceiling [3, 0, 0, 0, 5, 0, 0, 0] ⟨envId, 0, 0, [], none⟩
    (fun _ _ => .closed) 0 (by decide)

/-- C1 counterexample: a getdirentries request (op_id 7, inside 0..8)
whose underlying call fails with -1 makes the handler hit the
out-of-bounds `memcpy`, so no reply frame is sent at all — the claim's
"exactly one reply for both the success and failure result of every
operation" fails at this input. -/
theorem c1_no_reply_on_getdirentries_failure :
    opIdOf [7, 0, 0, 0, 16, 0, 0, 0] = 7 ∧
    (serve (.ok [7, 0, 0, 0, 16, 0, 0, 0])
      ⟨envId, -1, 9, List.replicate 16 0, none⟩).sent = [] := by
  decide

/-- C1 (amended): for every complete request frame with op_id in 0..8,
the dispatcher sends exactly one reply frame whose first 4 bytes equal
the reply's total byte count minus 4, for every operation and for both
the success and failure result of the underlying call — except a
getdirentries request whose call fails (result -1), where the
out-of-range copy is undefined behaviour and no reply is sent, and a
getdirtree request whose tree drives the serializer into its buffer
overflow (an internal node record over the 200-byte initial buffer, or
int length bookkeeping out of range), likewise undefined behaviour with
no reply (the `FsOracle.WF` op-8 clause demands a completed
serialization). -/
theorem c1_reply_length (hdr : List Nat) (o : FsOracle)
    (hlo : 0 ≤ opIdOf hdr) (hhi : opIdOf hdr ≤ 8)
    (hwf : FsOracle.WF (opIdOf hdr) o)
    (h7 : opIdOf hdr = 7 → 0 ≤ o.res) :
    ∃ r, (serve (.ok hdr) o).sent = [r] ∧
      decodeLE (r.take 4) + 4 = r.length := by
  have p31 : (2 : Int) ^ 31 = 2147483648 := by norm_num
  have p32 : (2 : Int) ^ 32 = 4294967296 := by norm_num
  have hsent : (serve (.ok hdr) o).sent = (dispatch (opIdOf hdr) o).1 := rfl
  simp only [FsOracle.WF] at hwf
  obtain ⟨w3, w5, w7, w8⟩ := hwf
  set a := opIdOf hdr with ha
  interval_cases a
  · -- op 0: open
    have hd : dispatch 0 o = ([serveOpen o.env o.res o.errnoAfter], false, some 0) := by
      simp [dispatch]
    refine ⟨_, by rw [hsent, hd], ?_⟩
    have hshape : serveOpen o.env o.res o.errnoAfter =
        encI 4 8 ++ (encI 4 o.res ++ encI 4 (o.env 1 (o.env 0 o.errnoAfter))) := by
      simp [serveOpen]
    rw [hshape]
    exact replyLen_ok 8 _ (by norm_num) (by norm_num)
      (by simp [List.length_append, encI_length])
  · -- op 1: close
    have hd : dispatch 1 o = ([serveClose o.env o.res o.errnoAfter], false, some 0) := by
      simp [dispatch]
    refine ⟨_, by rw [hsent, hd], ?_⟩
    have hshape : serveClose o.env o.res o.errnoAfter =
        encI 4 8 ++ (encI 4 o.res ++ encI 4 (o.env 0 o.errnoAfter)) := by
      simp [serveClose]
    rw [hshape]
    exact replyLen_ok 8 _ (by norm_num) (by norm_num)
      (by simp [List.length_append, encI_length])
  · -- op 2: write
    have hd : dispatch 2 o = ([serveWrite o.env o.res o.errnoAfter], false, some 0) := by
      simp [dispatch]
    refine ⟨_, by rw [hsent, hd], ?_⟩
    have hshape : serveWrite o.env o.res o.errnoAfter =
        encI 4 12 ++ (encI 8 o.res ++ encI 4 (o.env 1 (o.env 0 o.errnoAfter))) := by
      simp [serveWrite]
    rw [hshape]
    exact replyLen_ok 12 _ (by norm_num) (by norm_num)
      (by simp [List.length_append, encI_length])
  · -- op 3: read
    obtain ⟨hr1, hr2, hr3⟩ := w3 rfl
    have hd : dispatch 3 o =
        ([serveRead o.env o.res o.errnoAfter o.outBytes], false, some 0) := by
      simp [dispatch]
    refine ⟨_, by rw [hsent, hd], ?_⟩
    by_cases hc : o.res = -1
    · have hshape : serveRead o.env o.res o.errnoAfter o.outBytes =
          encI 4 12 ++ (encI 8 o.res ++ encI 4 (o.env 0 o.errnoAfter)) := by
        simp [serveRead, hc]
      rw [hshape]
      exact replyLen_ok 12 _ (by norm_num) (by norm_num)
        (by simp [List.length_append, encI_length])
    · have hnn : 0 ≤ o.res := by omega
      have hshape : serveRead o.env o.res o.errnoAfter o.outBytes =
          encI 4 (o.res + 12) ++ (encI 8 o.res ++
            (encI 4 (o.env 0 o.errnoAfter) ++ o.outBytes.take o.res.toNat)) := by
        simp [serveRead, hc]
      rw [hshape]
      refine replyLen_ok (o.res + 12) _ (by omega) ?_ ?_
      · rw [p32]; rw [p31] at hr2; omega
      · simp [List.length_append, encI_length, List.length_take]
        omega
  · -- op 4: lseek
    have hd : dispatch 4 o = ([serveLseek o.env o.res o.errnoAfter], false, some 0) := by
      simp [dispatch]
    refine ⟨_, by rw [hsent, hd], ?_⟩
    have hshape : serveLseek o.env o.res o.errnoAfter =
        encI 4 12 ++ (encI 8 o.res ++ encI 4 (o.env 0 o.errnoAfter)) := by
      simp [serveLseek]
    rw [hshape]
    exact replyLen_ok 12 _ (by norm_num) (by norm_num)
      (by simp [List.length_append, encI_length])
  · -- op 5: stat
    have hst := w5 rfl
    have hd : dispatch 5 o =
        ([serveStat o.env o.res o.errnoAfter o.outBytes], false, some 0) := by
      simp [dispatch]
    refine ⟨_, by rw [hsent, hd], ?_⟩
    have hshape : serveStat o.env o.res o.errnoAfter o.outBytes =
        encI 4 (8 + (statSize : Int)) ++ (encI 4 o.res ++
          (encI 4 (o.env 0 o.errnoAfter) ++ o.outBytes.take statSize)) := by
      simp [serveStat]
    rw [hshape]
    refine replyLen_ok (8 + (statSize : Int)) _ (by simp [statSize]) (by simp [statSize]) ?_
    simp [List.length_append, encI_length, List.length_take, statSize]
    simp [statSize] at hst
    omega
  · -- op 6: unlink
    have hd : dispatch 6 o = ([serveUnlink o.env o.res o.errnoAfter], false, some 0) := by
      simp [dispatch]
    refine ⟨_, by rw [hsent, hd], ?_⟩
    have hshape : serveUnlink o.env o.res o.errnoAfter =
        encI 4 8 ++ (encI 4 o.res ++ encI 4 (o.env 0 o.errnoAfter)) := by
      simp [serveUnlink]
    rw [hshape]
    exact replyLen_ok 8 _ (by norm_num) (by norm_num)
      (by simp [List.length_append, encI_length])
  · -- op 7: getdirentries (amendment: the call succeeded)
    obtain ⟨hg1, hg2, hg3⟩ := w7 rfl
    have hres : 0 ≤ o.res := h7 rfl
    have hmod : o.res % ((2 : Int) ^ 64) = o.res := by
      refine Int.emod_eq_of_lt hres ?_
      rw [p31] at hg2
      norm_num
      omega
    have hsome : serveGetdirentries o.env o.res o.errnoAfter o.outBytes =
        some (encI 4 (o.res + 12) ++ (encI 8 o.res ++
          (encI 4 (o.env 0 o.errnoAfter) ++ o.outBytes.take o.res.toNat))) := by
      have hb := hg3 hres
      have htk : (o.res % ((2 : Int) ^ 64)).toNat = o.res.toNat := by rw [hmod]
      have htk2 : (o.res % (18446744073709551616 : Int)).toNat = o.res.toNat := by
        rw [show (18446744073709551616 : Int) = 2 ^ 64 from by norm_num, hmod]
      simp only [serveGetdirentries, htk, htk2]
      rw [if_pos hb]
      simp [List.append_assoc]
    have hd : dispatch 7 o =
        ([encI 4 (o.res + 12) ++ (encI 8 o.res ++
          (encI 4 (o.env 0 o.errnoAfter) ++ o.outBytes.take o.res.toNat))],
          false, some 0) := by
      simp [dispatch, hsome]
    refine ⟨_, by rw [hsent, hd], ?_⟩
    refine replyLen_ok (o.res + 12) _ (by omega) ?_ ?_
    · rw [p32]; rw [p31] at hg2; omega
    · simp [List.length_append, encI_length, List.length_take]
      have := hg3 hres
      omega
  · -- op 8: getdirtree
    cases htree : o.tree with
    | none =>
      have hserve : serveGetdirtree o.env o.errnoAfter o.tree =
          some (encI 4 8 ++ (encI 4 1 ++ encI 4 o.errnoAfter)) := by
        simp [serveGetdirtree, htree, List.append_assoc]
      have hd : dispatch 8 o =
          ([encI 4 8 ++ (encI 4 1 ++ encI 4 o.errnoAfter)], false, some 0) := by
        simp [dispatch, hserve]
      refine ⟨_, by rw [hsent, hd], ?_⟩
      exact replyLen_ok 8 _ (by norm_num) (by norm_num)
        (by simp [List.length_append, encI_length])
    | some tr =>
      obtain ⟨s, hser, hlt⟩ := w8 rfl tr htree
      have hserve : serveGetdirtree o.env o.errnoAfter o.tree =
          some (encI 4 (17 + (s.length : Int)) ++ (encI 4 0 ++
            (encI 8 (s.length : Int) ++
              (encI 4 (o.env 0 o.errnoAfter) ++ (s ++ [0]))))) := by
        simp [serveGetdirtree, htree, hser, List.append_assoc]
      have hd : dispatch 8 o =
          ([encI 4 (17 + (s.length : Int)) ++ (encI 4 0 ++
            (encI 8 (s.length : Int) ++
              (encI 4 (o.env 0 o.errnoAfter) ++ (s ++ [0]))))], false, some 0) := by
        simp [dispatch, hserve]
      refine ⟨_, by rw [hsent, hd], ?_⟩
      refine replyLen_ok (17 + (s.length : Int)) _ (by omega) ?_ ?_
      · rw [p32]
        omega
      · simp [List.length_append, encI_length]
        omega

/-- C1 witness: an open request whose underlying call failed. -/
theorem c1_reply_length_witness :
    ∃ r, (serve (.ok [0, 0, 0, 0, 0, 0, 0, 0])
        ⟨envId, -1, 2, [], none⟩).sent = [r] ∧
      decodeLE (r.take 4) + 4 = r.length :=
  c1_reply_length [0, 0, 0, 0, 0, 0, 0, 0] ⟨envId, -1, 2, [], none⟩
    (by decide) (by decide)
    ⟨fun h => absurd h (by decide), fun h => absurd h (by decide),
      fun h => absurd h (by decide), fun h => absurd h (by decide)⟩
    (fun h => absurd h (by decide))
